/-
  Verification of the FAT12 filesystem driver core (src/src/fat.c) against its
  natural-language specification.

  The C code is shallowly embedded: the in-memory FAT buffer is a byte map
  `Nat → Nat` (every byte < 256 is enforced by reducing reads modulo 256,
  mirroring the `uint8_t` type of the C buffer), machine integers are `Nat`
  or `Int` with explicit truncation where the C types make it observable,
  C strings are lists of bytes, and the `while` loops of the source are
  fuel-based recursions whose fuel provably suffices on the inputs the
  theorems quantify over.
-/
import Mathlib

/-- Modelled from the spec: `fat.h` is not part of the provided sources; §3 of
the spec fixes the end-of-chain marker written by the driver to `FAT_END = 0xFF8`
(values `0xFF8–0xFFF` terminate a chain when reading). -/
def FAT_END : Nat := 0xFF8

/-- Modelled from the spec: attribute byte of a VFAT long-name entry,
`LONGNAME = 0x0F` (§3). -/
def FAT_DIR_LONGNAME : Nat := 0x0F

/-- Modelled from the spec: attribute byte of a directory entry,
`DIRECTORY = 0x10` (§3). -/
def FAT_DIR_DIRECTORY : Nat := 0x10

/-- Modelled from the spec: the `S_DIR` mode bit of `dito.h` (§6 only says a
mode bit distinguishes directories; its numeric value is immaterial to every
claim, it is fixed here as the usual 0x4000). -/
def S_DIR : Nat := 0x4000

/-- `fat_read_fat` (src/src/fat.c:94-110), FAT12 branch.  Entry `cluster` is
the 16-bit little-endian word at byte offset `cluster + cluster/2`; an odd
entry keeps the high 12 bits (`value >>= 4`, i.e. `/ 16`), an even entry the
low 12 bits (`value &= 0x0FFF`, i.e. `% 4096`).  The `% 256` on each byte
encodes the `uint8_t` type of the buffer. -/
def fat_read_fat (fat : Nat → Nat) (cluster : Nat) : Nat :=
  let offset := cluster + cluster / 2
  let value := fat offset % 256 + fat (offset + 1) % 256 * 256
  if cluster % 2 = 1 then value / 16 else value % 4096

/-- `fat_write_fat` (src/src/fat.c:112-128), FAT12 branch.  For an odd entry
the C code stores `(value & 0x000F) | (set << 4)` into the 16-bit word, which
for disjoint bit ranges is `value % 16 + set % 4096 * 16` after the `uint16_t`
truncation; for an even entry `(value & 0xF000) | (set & 0x0FFF)` is
`value / 4096 * 4096 + set % 4096`.  The two bytes of the word are stored
back little-endian. -/
def fat_write_fat (fat : Nat → Nat) (cluster set : Nat) : Nat → Nat :=
  let offset := cluster + cluster / 2
  let value := fat offset % 256 + fat (offset + 1) % 256 * 256
  let value2 := if cluster % 2 = 1 then value % 16 + set % 4096 * 16
                else value / 4096 * 4096 + set % 4096
  fun i => if i = offset then value2 % 256
           else if i = offset + 1 then value2 / 256
           else fat i

/-- Loop of `fat_find_free` (src/src/fat.c:130-145): scan indices `i, i+1, ...`
below `nc` and return the first whose FAT entry is 0; return 0 if none.  The
structural `fuel` stands in for the C `while`; `nc + 1` always suffices. -/
def fat_find_free_loop (fat : Nat → Nat) (nc : Nat) : Nat → Nat → Nat
  | 0, _ => 0
  | fuel + 1, i =>
    if i < nc then
      (if fat_read_fat fat i ≠ 0 then fat_find_free_loop fat nc fuel (i + 1) else i)
    else 0

/-- `fat_find_free` (src/src/fat.c:130-145): the scan starts at index 3
("Skip first two entries"). -/
def fat_find_free (fat : Nat → Nat) (nc : Nat) : Nat :=
  fat_find_free_loop fat nc (nc + 1) 3

/-- The cluster chain visited by the `while(cluster < FAT_END)` loops of
`fat_clustercount` / `fat_get_clusters` (src/src/fat.c:166-217), as a list,
with fuel standing in for the unbounded C loop. -/
def fat_chain_list (fat : Nat → Nat) : Nat → Nat → List Nat
  | _, 0 => []
  | cluster, fuel + 1 =>
    if cluster < FAT_END then
      cluster :: fat_chain_list fat (fat_read_fat fat cluster) fuel
    else []

/-- Number of free (value 0) FAT entries at indices `3 ≤ i < nc`; the pool
`fat_find_free` allocates from. -/
def freeCount (fat : Nat → Nat) (nc : Nat) : Nat :=
  ((Finset.range nc).filter (fun i => 3 ≤ i ∧ fat_read_fat fat i = 0)).card

-- Basic get/set laws of the FAT12 table.

theorem fat_write_fat_read_eq (fat : Nat → Nat) (n v : Nat) :
    fat_read_fat (fat_write_fat fat n v) n = v % 4096 := by
  unfold fat_read_fat fat_write_fat
  simp only []
  split_ifs <;> omega

theorem fat_write_fat_read_ne (fat : Nat → Nat) (n v m : Nat) (hmn : m ≠ n) :
    fat_read_fat (fat_write_fat fat n v) m = fat_read_fat fat m := by
  have H : (m = n + 1 ∧ n % 2 = 0) ∨ (n = m + 1 ∧ m % 2 = 0) ∨
      (m + m / 2 + 1 < n + n / 2 ∨ n + n / 2 + 1 < m + m / 2) := by omega
  rcases H with ⟨hm, hn⟩ | ⟨hm, hn⟩ | hd
  · -- m is the odd entry sharing the high nibble of the written word
    subst hm
    have e : n + 1 + (n + 1) / 2 = n + n / 2 + 1 := by omega
    unfold fat_read_fat fat_write_fat
    simp only [e]
    split_ifs <;> omega
  · -- m is the even entry sharing the low nibble of the written word
    subst hm
    have e : m + 1 + (m + 1) / 2 = m + m / 2 + 1 := by omega
    unfold fat_read_fat fat_write_fat
    simp only [e]
    split_ifs <;> omega
  · -- the byte ranges of the two entries are disjoint
    unfold fat_read_fat fat_write_fat
    simp only []
    split_ifs <;> omega

/-- C3: on a FAT12 volume, after `set(n, v)` with a 12-bit `v`, `get(n)`
returns `v`, and `get(m)` for any other index `m ≠ n` is unchanged — in
particular the neighboring entry sharing a straddled 16-bit word with entry
`n` is not corrupted. -/
theorem fat12_set_get_roundtrip (fat : Nat → Nat) (n v m : Nat)
    (hv : v < 4096) (hmn : m ≠ n) :
    fat_read_fat (fat_write_fat fat n v) n = v ∧
    fat_read_fat (fat_write_fat fat n v) m = fat_read_fat fat m := by
  refine ⟨?_, fat_write_fat_read_ne fat n v m hmn⟩
  rw [fat_write_fat_read_eq, Nat.mod_eq_of_lt hv]

theorem fat12_set_get_roundtrip_witness :
    (7 : Nat) < 4096 ∧ (5 : Nat) ≠ 4 ∧
    (fat_read_fat (fat_write_fat (fun _ => 0) 4 7) 4 = 7 ∧
     fat_read_fat (fat_write_fat (fun _ => 0) 4 7) 5 = fat_read_fat (fun _ => 0) 5) :=
  ⟨by decide, by decide,
   fat12_set_get_roundtrip (fun _ => 0) 4 7 5 (by decide) (by decide)⟩

-- Characterization of the free-entry scan.

theorem fat_find_free_loop_spec (fat : Nat → Nat) (nc : Nat) :
    ∀ fuel i, nc - i < fuel →
    (fat_find_free_loop fat nc fuel i = 0 ∧ ∀ j, i ≤ j → j < nc → fat_read_fat fat j ≠ 0) ∨
    (i ≤ fat_find_free_loop fat nc fuel i ∧ fat_find_free_loop fat nc fuel i < nc ∧
     fat_read_fat fat (fat_find_free_loop fat nc fuel i) = 0 ∧
     ∀ j, i ≤ j → j < fat_find_free_loop fat nc fuel i → fat_read_fat fat j ≠ 0) := by
  intro fuel
  induction fuel with
  | zero =>
    intro i hik
    exact absurd hik (by omega)
  | succ k ih =>
    intro i hik
    simp only [fat_find_free_loop]
    by_cases hlt : i < nc
    · rw [if_pos hlt]
      by_cases hz : fat_read_fat fat i ≠ 0
      · rw [if_pos hz]
        rcases ih (i + 1) (by omega) with ⟨h0, hall⟩ | ⟨h1, h2, h3, h4⟩
        · refine Or.inl ⟨h0, fun j hj hj2 => ?_⟩
          by_cases hji : j = i
          · exact hji ▸ hz
          · exact hall j (by omega) hj2
        · refine Or.inr ⟨by omega, h2, h3, fun j hj hj2 => ?_⟩
          by_cases hji : j = i
          · exact hji ▸ hz
          · exact h4 j (by omega) hj2
      · rw [if_neg hz]
        push_neg at hz
        exact Or.inr ⟨le_refl i, hlt, hz, fun j hj hj2 => absurd (lt_of_le_of_lt hj hj2) (by omega)⟩
    · rw [if_neg hlt]
      exact Or.inl ⟨rfl, fun j hj hj2 => absurd (lt_of_le_of_lt hj hj2) (by omega)⟩

/-- C9: `find_free` returns the smallest index `i ≥ 3` below `nc` whose FAT
entry is 0 — so every index in `3..i-1` has a nonzero entry and index 2 is
never returned — and returns 0 when no free index `≥ 3` exists. -/
theorem fat_find_free_spec (fat : Nat → Nat) (nc : Nat) :
    (fat_find_free fat nc = 0 ∧ ∀ j, 3 ≤ j → j < nc → fat_read_fat fat j ≠ 0) ∨
    (3 ≤ fat_find_free fat nc ∧ fat_find_free fat nc < nc ∧
     fat_read_fat fat (fat_find_free fat nc) = 0 ∧
     ∀ j, 3 ≤ j → j < fat_find_free fat nc → fat_read_fat fat j ≠ 0) :=
  fat_find_free_loop_spec fat nc (nc + 1) 3 (by omega)

theorem fat_find_free_spec_witness :
    (fat_find_free (fun _ => 0) 8 = 0 ∧
       ∀ j, 3 ≤ j → j < 8 → fat_read_fat (fun _ => 0) j ≠ 0) ∨
    (3 ≤ fat_find_free (fun _ => 0) 8 ∧ fat_find_free (fun _ => 0) 8 < 8 ∧
     fat_read_fat (fun _ => 0) (fat_find_free (fun _ => 0) 8) = 0 ∧
     ∀ j, 3 ≤ j → j < fat_find_free (fun _ => 0) 8 → fat_read_fat (fun _ => 0) j ≠ 0) :=
  fat_find_free_spec (fun _ => 0) 8

-- Bookkeeping for the free-entry pool.

theorem freeCount_pos_exists (fat : Nat → Nat) (nc : Nat) (h : 0 < freeCount fat nc) :
    ∃ i, 3 ≤ i ∧ i < nc ∧ fat_read_fat fat i = 0 := by
  obtain ⟨i, hi⟩ := Finset.card_pos.mp h
  simp only [Finset.mem_filter, Finset.mem_range] at hi
  exact ⟨i, hi.2.1, hi.1, hi.2.2⟩

theorem fat_find_free_mem (fat : Nat → Nat) (nc : Nat) (h : 0 < freeCount fat nc) :
    3 ≤ fat_find_free fat nc ∧ fat_find_free fat nc < nc ∧
      fat_read_fat fat (fat_find_free fat nc) = 0 := by
  rcases fat_find_free_spec fat nc with ⟨_, hall⟩ | ⟨h1, h2, h3, _⟩
  · obtain ⟨i, hi1, hi2, hi3⟩ := freeCount_pos_exists fat nc h
    exact absurd hi3 (hall i hi1 hi2)
  · exact ⟨h1, h2, h3⟩

theorem freeCount_write_nonfree (fat : Nat → Nat) (n v nc : Nat)
    (hn : fat_read_fat fat n ≠ 0) (hv : v % 4096 ≠ 0) :
    freeCount (fat_write_fat fat n v) nc = freeCount fat nc := by
  unfold freeCount
  congr 1
  apply Finset.filter_congr
  intro i _
  by_cases hin : i = n
  · subst hin
    rw [fat_write_fat_read_eq]
    simp [hn, hv]
  · rw [fat_write_fat_read_ne fat n v i hin]

theorem freeCount_write_free (fat : Nat → Nat) (n v nc : Nat)
    (h3 : 3 ≤ n) (hn2 : n < nc)
    (hfree : fat_read_fat fat n = 0) (hv : v % 4096 ≠ 0) :
    freeCount (fat_write_fat fat n v) nc + 1 = freeCount fat nc := by
  unfold freeCount
  have hset : (Finset.range nc).filter
        (fun i => 3 ≤ i ∧ fat_read_fat (fat_write_fat fat n v) i = 0) =
      ((Finset.range nc).filter (fun i => 3 ≤ i ∧ fat_read_fat fat i = 0)).erase n := by
    ext i
    simp only [Finset.mem_filter, Finset.mem_range, Finset.mem_erase]
    constructor
    · rintro ⟨hir, hi3, hiz⟩
      by_cases hin : i = n
      · subst hin
        rw [fat_write_fat_read_eq] at hiz
        exact absurd hiz hv
      · rw [fat_write_fat_read_ne fat n v i hin] at hiz
        exact ⟨hin, hir, hi3, hiz⟩
    · rintro ⟨hin, hir, hi3, hiz⟩
      rw [← fat_write_fat_read_ne fat n v i hin] at hiz
      exact ⟨hir, hi3, hiz⟩
  rw [hset]
  have hmem : n ∈ (Finset.range nc).filter (fun i => 3 ≤ i ∧ fat_read_fat fat i = 0) := by
    simp only [Finset.mem_filter, Finset.mem_range]
    exact ⟨hn2, h3, hfree⟩
  rw [Finset.card_erase_of_mem hmem]
  have := Finset.card_pos.mpr ⟨n, hmem⟩
  omega

/-- Allocation loop of `fat_touch` (src/src/fat.c:470-479): while `size > 0`,
link a fresh free cluster onto the tail `current` (`fat_write_fat(current,
fat_find_free())`), move to it (`current = fat_read_fat(current)`), mark it
end-of-chain, and decrease `size` by one cluster (`size = 0` when the cluster
covers the rest).  `size` is the C `int32_t` accumulator, hence `Int`; the
structural `fuel` stands in for the C `while` and provably suffices whenever
`cs > 0`. -/
def fat_touch_alloc_loop (nc cs : Nat) : Nat → (Nat → Nat) → Nat → Int → (Nat → Nat)
  | 0, fat, _, _ => fat
  | fuel + 1, fat, current, size =>
    if 0 < size then
      let next := fat_find_free fat nc
      let fat1 := fat_write_fat fat current next
      let current2 := fat_read_fat fat1 current
      let fat2 := fat_write_fat fat1 current2 FAT_END
      let size2 : Int := if (cs : Int) > size then 0 else size - (cs : Int)
      fat_touch_alloc_loop nc cs fuel fat2 current2 size2
    else fat

/-- Allocation section of `fat_touch` (src/src/fat.c:466-479): the head
cluster is taken from `find_free` and marked `FAT_END`, then the loop above
runs on `size = S - cluster_size`. -/
def fat_touch_alloc (fat : Nat → Nat) (nc cs S : Nat) : Nat × (Nat → Nat) :=
  let current := fat_find_free fat nc
  let fat1 := fat_write_fat fat current FAT_END
  (current, fat_touch_alloc_loop nc cs S fat1 current ((S : Int) - (cs : Int)))

/-- Number of iterations the allocation loop performs from accumulator
`size`: zero when `size ≤ 0`, else one per started cluster. -/
def itersNeeded (size : Int) (cs : Nat) : Nat :=
  if size ≤ 0 then 0 else (size - 1).toNat / cs + 1

theorem itersNeeded_nonpos (size : Int) (cs : Nat) (h : size ≤ 0) :
    itersNeeded size cs = 0 := by
  unfold itersNeeded
  rw [if_pos h]

theorem itersNeeded_of_pos (size : Int) (cs : Nat) (h : 0 < size) :
    itersNeeded size cs = (size - 1).toNat / cs + 1 := by
  unfold itersNeeded
  rw [if_neg (by omega)]

theorem itersNeeded_step (size : Int) (cs : Nat) (hs : 0 < size) (hcs : 0 < cs) :
    itersNeeded (if (cs : Int) > size then 0 else size - (cs : Int)) cs + 1 =
      itersNeeded size cs := by
  rw [itersNeeded_of_pos size cs hs]
  by_cases hgt : (cs : Int) > size
  · rw [if_pos hgt, itersNeeded_nonpos 0 cs (le_refl 0)]
    have hlt : (size - 1).toNat < cs := by omega
    rw [Nat.div_eq_of_lt hlt]
  · rw [if_neg hgt]
    by_cases hz : size - (cs : Int) ≤ 0
    · rw [itersNeeded_nonpos _ cs hz]
      have : (size - 1).toNat / cs = 0 := Nat.div_eq_of_lt (by omega)
      omega
    · rw [itersNeeded_of_pos _ cs (by omega)]
      have he : (size - 1).toNat = (size - (cs : Int) - 1).toNat + cs := by omega
      rw [he, Nat.add_div_right _ hcs]

theorem itersNeeded_le (S cs : Nat) (hcs : 0 < cs) :
    itersNeeded ((S : Int) - (cs : Int)) cs ≤ S := by
  by_cases h : (S : Int) - (cs : Int) ≤ 0
  · rw [itersNeeded_nonpos _ cs h]; omega
  · rw [itersNeeded_of_pos _ cs (by omega)]
    have hd := Nat.div_le_self (((S : Int) - (cs : Int) - 1).toNat) cs
    omega

theorem touch_cluster_count (S cs : Nat) (hcs : 0 < cs) :
    itersNeeded ((S : Int) - (cs : Int)) cs + 1 = max 1 ((S + cs - 1) / cs) := by
  by_cases h : (S : Int) - (cs : Int) ≤ 0
  · rw [itersNeeded_nonpos _ cs h]
    by_cases hS : S = 0
    · subst hS
      have h0 : (0 + cs - 1) / cs = 0 := Nat.div_eq_of_lt (by omega)
      rw [h0]
      decide
    · have h1 : (S + cs - 1) / cs = 1 := by
        apply Nat.div_eq_of_lt_le (by omega) (by omega)
      rw [h1]
      decide
  · rw [itersNeeded_of_pos _ cs (by omega)]
    have he : ((S : Int) - (cs : Int) - 1).toNat = S - cs - 1 := by omega
    have he2 : S + cs - 1 = (S - cs - 1) + cs + cs := by omega
    rw [he, he2, Nat.add_div_right _ hcs, Nat.add_div_right _ hcs]
    rw [Nat.max_eq_right (Nat.le_add_left 1 ((S - cs - 1) / cs + 1))]

theorem fat_chain_list_stop (fat : Nat → Nat) (c fuel : Nat) (h : ¬ c < FAT_END) :
    fat_chain_list fat c fuel = [] := by
  cases fuel with
  | zero => rfl
  | succ g => rw [fat_chain_list, if_neg h]

theorem getLastD_irrel (l : List Nat) (h : l ≠ []) (a b : Nat) :
    l.getLastD a = l.getLastD b := by
  cases l with
  | nil => exact absurd rfl h
  | cons x xs => rw [List.getLastD_cons, List.getLastD_cons]

theorem FAT_END_eq : FAT_END = 4088 := rfl

theorem fat_touch_alloc_loop_succ (nc cs f : Nat) (fat : Nat → Nat) (current : Nat)
    (size : Int) (h : 0 < size) :
    fat_touch_alloc_loop nc cs (f + 1) fat current size =
      fat_touch_alloc_loop nc cs f
        (fat_write_fat (fat_write_fat fat current (fat_find_free fat nc))
          (fat_read_fat (fat_write_fat fat current (fat_find_free fat nc)) current) FAT_END)
        (fat_read_fat (fat_write_fat fat current (fat_find_free fat nc)) current)
        (if (cs : Int) > size then 0 else size - (cs : Int)) := by
  simp only [fat_touch_alloc_loop]
  rw [if_pos h]

theorem fat_touch_alloc_loop_spec (nc cs : Nat) (hnc : nc < 4085) (hcs : 0 < cs) :
    ∀ n fuel (fat : Nat → Nat) (current : Nat) (size : Int),
      3 ≤ current → current < nc →
      fat_read_fat fat current = FAT_END →
      itersNeeded size cs = n →
      n ≤ freeCount fat nc →
      n ≤ fuel →
      (∀ fuel2, n + 1 ≤ fuel2 →
          (fat_chain_list (fat_touch_alloc_loop nc cs fuel fat current size) current fuel2).length
              = n + 1 ∧
          fat_read_fat (fat_touch_alloc_loop nc cs fuel fat current size)
              ((fat_chain_list (fat_touch_alloc_loop nc cs fuel fat current size) current
                fuel2).getLastD 0)
            = FAT_END) ∧
      freeCount (fat_touch_alloc_loop nc cs fuel fat current size) nc + n = freeCount fat nc ∧
      (∀ m, m ≠ current → fat_read_fat fat m ≠ 0 →
        fat_read_fat (fat_touch_alloc_loop nc cs fuel fat current size) m = fat_read_fat fat m) := by
  intro n
  induction n with
  | zero =>
    intro fuel fat current size h3 hlt hcur hiter _ _
    have hsz : size ≤ 0 := by
      by_contra hpos
      rw [itersNeeded_of_pos size cs (by omega)] at hiter
      exact Nat.succ_ne_zero _ hiter
    have hres : fat_touch_alloc_loop nc cs fuel fat current size = fat := by
      cases fuel with
      | zero => rfl
      | succ f =>
        simp only [fat_touch_alloc_loop]
        rw [if_neg (by omega)]
    rw [hres]
    refine ⟨?_, by omega, fun m _ _ => rfl⟩
    intro fuel2 hf2
    obtain ⟨g, rfl⟩ : ∃ g, fuel2 = g + 1 := ⟨fuel2 - 1, by omega⟩
    rw [fat_chain_list, if_pos (by rw [FAT_END_eq]; omega), hcur,
      fat_chain_list_stop fat FAT_END g (by rw [FAT_END_eq]; omega)]
    exact ⟨rfl, by rw [List.getLastD_cons]; exact hcur⟩
  | succ n ih =>
    intro fuel fat current size h3 hlt hcur hiter hfree hfuel
    have hpos : 0 < size := by
      by_contra hnp
      rw [itersNeeded_nonpos size cs (by omega)] at hiter
      omega
    obtain ⟨f, rfl⟩ : ∃ f, fuel = f + 1 := ⟨fuel - 1, by omega⟩
    obtain ⟨hn3, hnlt, hnz⟩ := fat_find_free_mem fat nc (by omega)
    have hr1c : fat_read_fat (fat_write_fat fat current (fat_find_free fat nc)) current
        = fat_find_free fat nc := by
      rw [fat_write_fat_read_eq]
      exact Nat.mod_eq_of_lt (by omega)
    rw [fat_touch_alloc_loop_succ nc cs f fat current size hpos, hr1c]
    set q := fat_find_free fat nc with hq
    set fat2 := fat_write_fat (fat_write_fat fat current q) q FAT_END with hfat2
    set size2 : Int := if (cs : Int) > size then 0 else size - (cs : Int) with hsize2
    have hne : q ≠ current := by
      intro he
      rw [he, hcur, FAT_END_eq] at hnz
      omega
    have hr1 : ∀ m, m ≠ current →
        fat_read_fat (fat_write_fat fat current q) m = fat_read_fat fat m :=
      fun m hm => fat_write_fat_read_ne fat current q m hm
    have hr2 : ∀ m, m ≠ q →
        fat_read_fat fat2 m = fat_read_fat (fat_write_fat fat current q) m :=
      fun m hm => fat_write_fat_read_ne (fat_write_fat fat current q) q FAT_END m hm
    have hr2n : fat_read_fat fat2 q = FAT_END := by
      rw [hfat2, fat_write_fat_read_eq]
      rw [FAT_END_eq]
    have hr2c : fat_read_fat fat2 current = q := by
      rw [hr2 current (fun he => hne he.symm), hr1c]
    have hfree2 : freeCount fat2 nc + 1 = freeCount fat nc := by
      rw [hfat2]
      have ha : freeCount (fat_write_fat fat current q) nc = freeCount fat nc := by
        apply freeCount_write_nonfree fat current q nc
        · rw [hcur, FAT_END_eq]; omega
        · rw [Nat.mod_eq_of_lt (by omega)]; omega
      rw [← ha]
      apply freeCount_write_free (fat_write_fat fat current q) q FAT_END nc hn3 hnlt
      · rw [hr1 q hne, hnz]
      · rw [FAT_END_eq]; omega
    have hiter2 : itersNeeded size2 cs = n := by
      have hst := itersNeeded_step size cs hpos hcs
      rw [← hsize2] at hst
      omega
    obtain ⟨Kchain, Kfree, Kframe⟩ :=
      ih f fat2 q size2 hn3 hnlt hr2n hiter2 (by omega) (by omega)
    have hcurF : fat_read_fat (fat_touch_alloc_loop nc cs f fat2 q size2) current = q := by
      rw [Kframe current (fun he => hne he.symm) (by rw [hr2c]; omega), hr2c]
    refine ⟨?_, by omega, ?_⟩
    · intro fuel2 hf2
      obtain ⟨g, rfl⟩ : ∃ g, fuel2 = g + 1 := ⟨fuel2 - 1, by omega⟩
      obtain ⟨Klen, Klast⟩ := Kchain g (by omega)
      rw [fat_chain_list, if_pos (by rw [FAT_END_eq]; omega), hcurF]
      have hnil : fat_chain_list (fat_touch_alloc_loop nc cs f fat2 q size2) q g ≠ [] := by
        intro he
        rw [he] at Klen
        simp at Klen
      constructor
      · rw [List.length_cons, Klen]
      · rw [List.getLastD_cons, getLastD_irrel _ hnil current 0]
        exact Klast
    · intro m hm hz
      have hmq : m ≠ q := by
        intro he
        rw [he, hnz] at hz
        exact hz rfl
      rw [Kframe m hmq (by rw [hr2 m hmq, hr1 m hm]; exact hz), hr2 m hmq, hr1 m hm]

theorem fat_touch_alloc_spec (fat : Nat → Nat) (nc cs S : Nat)
    (hnc : nc < 4085) (hcs : 0 < cs)
    (hfree : max 1 ((S + cs - 1) / cs) ≤ freeCount fat nc) :
    (fat_chain_list (fat_touch_alloc fat nc cs S).2 (fat_touch_alloc fat nc cs S).1 nc).length
        = max 1 ((S + cs - 1) / cs) ∧
    fat_read_fat (fat_touch_alloc fat nc cs S).2
        ((fat_chain_list (fat_touch_alloc fat nc cs S).2
          (fat_touch_alloc fat nc cs S).1 nc).getLastD 0) = FAT_END ∧
    freeCount (fat_touch_alloc fat nc cs S).2 nc + max 1 ((S + cs - 1) / cs)
        = freeCount fat nc := by
  have hk := touch_cluster_count S cs hcs
  rw [← hk] at hfree ⊢
  set n := itersNeeded ((S : Int) - (cs : Int)) cs with hn
  obtain ⟨h03, h0lt, h0z⟩ := fat_find_free_mem fat nc (by omega)
  set c0 := fat_find_free fat nc with hc0
  have hf1c : fat_read_fat (fat_write_fat fat c0 FAT_END) c0 = FAT_END := by
    rw [fat_write_fat_read_eq]
    rw [FAT_END_eq]
  have hfree1 : freeCount (fat_write_fat fat c0 FAT_END) nc + 1 = freeCount fat nc :=
    freeCount_write_free fat c0 FAT_END nc h03 h0lt h0z (by rw [FAT_END_eq]; omega)
  obtain ⟨Kchain, Kfree, _⟩ :=
    fat_touch_alloc_loop_spec nc cs hnc hcs n S (fat_write_fat fat c0 FAT_END) c0
      ((S : Int) - (cs : Int)) h03 h0lt hf1c rfl (by omega) (itersNeeded_le S cs hcs)
  have hncn : n + 1 ≤ nc := by
    have hcard : freeCount fat nc ≤ nc :=
      le_trans (Finset.card_filter_le _ _) (le_of_eq (Finset.card_range nc))
    omega
  obtain ⟨Klen, Klast⟩ := Kchain nc hncn
  have hfst : (fat_touch_alloc fat nc cs S).1 = c0 := rfl
  have hsnd : (fat_touch_alloc fat nc cs S).2 =
      fat_touch_alloc_loop nc cs S (fat_write_fat fat c0 FAT_END) c0
        ((S : Int) - (cs : Int)) := rfl
  rw [hfst, hsnd]
  exact ⟨Klen, Klast, by omega⟩

-- C string helpers and the directory-entry codec.

/-- Bytes of a C string: everything before the first NUL. -/
def c_str (l : List Nat) : List Nat := l.takeWhile (fun b => b != 0)

/-- Index of the last `.` in the C string `name` (`strrchr(longname, '.')`). -/
def lastDotIdx (name : List Nat) : Option Nat :=
  match (c_str name).reverse.findIdx? (fun b => b == 46) with
  | some r => some ((c_str name).length - 1 - r)
  | none => none

/-- `fat_make_shortname` (src/src/fat.c:269-303): copy the first 8 characters
into a zeroed 11-byte buffer, cut at the first `.`, pad with spaces to 8, copy
up to 3 characters following the last `.` of the name into bytes 8-10
(`strncpy` NUL-fills the remainder of the 3), and pad with spaces to 11.  The
`strlen` calls are over the buffer's C string (prefix before the first NUL;
when all 11 bytes are nonzero the padding loop has nothing to do, which the
model reproduces). -/
def fat_make_shortname (name : List Nat) : List Nat :=
  let s0 := (List.range 11).map (fun i => if i < 8 then name.getD i 0 else 0)
  let s1 := match (c_str s0).findIdx? (fun b => b == 46) with
            | some j => s0.set j 0
            | none => s0
  let len1 := (c_str s1).length
  let s2 := (List.range 11).map (fun i => if len1 ≤ i ∧ i < 8 then 32 else s1.getD i 0)
  let s3 := match lastDotIdx name with
            | some d =>
              let ext := ((c_str name).drop (d + 1)).take 3
              (List.range 11).map (fun i =>
                if i < 8 then s2.getD i 0
                else if i - 8 < ext.length then ext.getD (i - 8) 0
                else if i - 8 < 3 then 0
                else s2.getD i 0)
            | none => s2
  let len3 := (c_str s3).length
  (List.range 11).map (fun i => if len3 ≤ i then 32 else s3.getD i 0)

/-- `fat_checksum` (src/src/fat.c:256-267): 8-bit rotate-right-and-add over
the 11 bytes of a short name: `sum = ((sum & 1) << 7) + (sum >> 1) + byte`
on a `uint8_t`, i.e. `((sum % 2) * 128 + sum / 2 + byte) % 256`. -/
def fat_checksum (shortname : List Nat) : Nat :=
  (shortname.take 11).foldl (fun sum b => ((sum % 2) * 128 + sum / 2 + b) % 256) 0

/-- The `fat_longname_t` on-disk layout (declared in the missing `fat.h`,
laid out per spec §3.5): sequence byte, 5+6+2 UTF-16 units as raw byte lists,
attribute, entry type, checksum, and the always-unwritten 2-byte cluster. -/
structure fat_longname where
  num : Nat
  name1 : List Nat
  attrib : Nat
  entry_type : Nat
  checksum : Nat
  name2 : List Nat
  cluster : Nat
  name3 : List Nat
deriving Inhabited, DecidableEq

/-- Scratch buffer of `fat_write_longname` (src/src/fat.c:318-330): each name
character followed by 0x00 (UTF-16), two further zero bytes left by the
skipped terminator slot, then 0xFF fill; when the length is a multiple of 13
the buffer is exactly the characters. -/
def ln_buffer (name : List Nat) (entries : Nat) : List Nat :=
  (List.range (entries * 26)).map (fun j =>
    if j < 2 * name.length then (if j % 2 = 0 then name.getD (j / 2) 0 else 0)
    else if j < 2 * name.length + 2 then 0
    else 0xFF)

/-- Disk entry `i` written by the loop of `fat_write_longname`
(src/src/fat.c:334-351): sequence number `entries - i` (a `uint8_t`, hence
`% 256`), fragment `entries - 1 - i` of the scratch buffer split 10/12/4
into `name1/2/3`, attribute 0x0F, entry type 0 and the checksum of the
paired short name; entry 0 additionally gets bit 0x40 or-ed in (line 351).
The 2-byte `cluster` field is never assigned and keeps the prior slot
content `de`. -/
def ln_entry (de : List fat_longname) (name : List Nat) (entries i : Nat) : fat_longname :=
  let buffer := ln_buffer name entries
  { num := if i = 0 then ((entries - i) % 256) ||| 0x40 else (entries - i) % 256
    name1 := (buffer.drop ((entries - 1 - i) * 26)).take 10
    attrib := FAT_DIR_LONGNAME
    entry_type := 0
    checksum := fat_checksum (fat_make_shortname name)
    name2 := (buffer.drop ((entries - 1 - i) * 26 + 10)).take 12
    cluster := (de.getD i default).cluster
    name3 := (buffer.drop ((entries - 1 - i) * 26 + 22)).take 4 }

/-- `fat_write_longname` (src/src/fat.c:305-358): `entries = len/13`, plus one
when `len` is not a multiple of 13, entries written by `ln_entry`. -/
def fat_write_longname (de : List fat_longname) (name : List Nat) : List fat_longname :=
  let entries := name.length / 13 + (if name.length % 13 = 0 then 0 else 1)
  (List.range entries).map (ln_entry de name entries)

/-- Low (even-offset) bytes of the three name fragments of a long-name entry,
in the order `fat_read_longname` copies them (src/src/fat.c:238-250). -/
def ln_lowbytes (e : fat_longname) : List Nat :=
  [e.name1.getD 0 0, e.name1.getD 2 0, e.name1.getD 4 0, e.name1.getD 6 0, e.name1.getD 8 0,
   e.name2.getD 0 0, e.name2.getD 2 0, e.name2.getD 4 0, e.name2.getD 6 0, e.name2.getD 8 0,
   e.name2.getD 10 0,
   e.name3.getD 0 0, e.name3.getD 2 0]

/-- `fat_read_longname` (src/src/fat.c:220-254): require attribute 0x0F and
bit 0x40 in the first sequence byte, take `count = seq & 0x1F`, and
concatenate the low bytes of entries `count-1, ..., 0` (last disk entry
first).  The C function returns a NUL-terminated heap string; the model
returns the copied bytes (the string read back is their `c_str`). -/
def fat_read_longname (ln : List fat_longname) : Option (List Nat) :=
  match ln with
  | [] => none
  | l0 :: _ =>
    if l0.attrib ≠ FAT_DIR_LONGNAME then none
    else if l0.num &&& 0x40 = 0 then none
    else
      some (((List.range (l0.num &&& 0x1F)).reverse).flatMap
        (fun j => ln_lowbytes (ln.getD j default)))

-- The volume state and the file operations.

/-- The `fat_inode_t` record of the handle table (declared in the missing
`fat.h`; fields per spec §3: parent handle (−1 when unknown), attribute
byte, first cluster, size, three timestamps). -/
structure fat_inode where
  parent : Int
  type : Nat
  cluster : Nat
  size : Nat
  atime : Int
  ctime : Int
  mtime : Int
deriving Inhabited, DecidableEq

/-- The `fstat_t` record exchanged with callers (spec §6). -/
structure fstat_t where
  size : Nat
  mode : Nat
  atime : Int
  ctime : Int
  mtime : Int
deriving Inhabited, DecidableEq

/-- The fields of `struct tm` the driver reads and writes. -/
structure fat_tm where
  tm_sec : Nat
  tm_min : Nat
  tm_hour : Nat
  tm_mday : Nat
  tm_mon : Nat
  tm_year : Nat
deriving Inhabited, DecidableEq

/-- The `dirent_t` returned by `readdir` (spec §6). -/
structure dirent_t where
  name : List Nat
  ino : Int
deriving Inhabited, DecidableEq

/-- The mutable volume state (`fat_data_t` plus the geometry the code reads
through `fat.h` helpers): the FAT byte buffer, `fat_num_clusters` `nc`,
`fat_clustersize` `cs` (bytes), `fat_root_sectors` `rs`, the BPB
`root_count`, the disk contents of the root+data region as a byte map
addressed from `fat_first_data_sector`, the inode list (handle `h` is entry
`h−1`) and the `next` handle counter. -/
structure fat_vol where
  fat : Nat → Nat
  nc : Nat
  cs : Nat
  rs : Nat
  root_count : Nat
  disk : Nat → Nat
  inodes : List fat_inode
  next : Nat

/-- `fat_get_inode` (src/src/fat.c:147-164): walk the inode list `ino - 1`
steps; 0 is invalid. -/
def fat_get_inode (v : fat_vol) (ino : Nat) : Option fat_inode :=
  if ino = 0 then none else v.inodes[ino - 1]?

/-- `fat_clustercount` (src/src/fat.c:166-187): for the root (handle 1),
`root_count * 32 / cluster_size`; otherwise the length of the FAT chain from
the inode's first cluster.  Fuel 4096 bounds the C `while`: FAT12 entries
are < 4096, so every terminating chain is shorter. -/
def fat_clustercount (v : fat_vol) (ino : Nat) : Nat :=
  if ino = 0 then 0
  else if ino = 1 then v.root_count * 32 / v.cs
  else (fat_chain_list v.fat ((fat_get_inode v ino).getD default).cluster 4096).length

/-- Chain walk of `fat_get_clusters` (src/src/fat.c:208-216): exactly
`n` steps, collecting the cluster then following the FAT. -/
def chain_take (fat : Nat → Nat) : Nat → Nat → List Nat
  | _, 0 => []
  | cluster, n + 1 => cluster :: chain_take fat (fat_read_fat fat cluster) n

/-- `fat_get_clusters` (src/src/fat.c:189-217): the root's cluster list is
`0, 1, ..., count-1`; other handles walk the chain for `clustercount`
steps.  (The C array carries one extra zero sentinel; consumers model it.) -/
def fat_get_clusters (v : fat_vol) (ino : Nat) : List Nat :=
  if ino = 0 then []
  else if ino = 1 then List.range (fat_clustercount v ino)
  else chain_take v.fat ((fat_get_inode v ino).getD default).cluster (fat_clustercount v ino)

/-- `fat_readclusters` (src/src/fat.c:44-69) for a single cluster (`length`
is always 1 at the call sites modelled here): clusters below 2 read the root
area at `fat_first_data_sector`, clusters ≥ 2 read `root_sectors` further
plus `(cluster-2)` cluster sizes.  Addresses are bytes relative to
`fat_first_data_sector`. -/
def fat_readclusters (v : fat_vol) (cluster : Nat) : List Nat :=
  let start := if 2 ≤ cluster then v.rs * 512 + (cluster - 2) * v.cs else 0
  (List.range v.cs).map (fun b => v.disk (start + b))

/-- `fat_writeclusters` (src/src/fat.c:71-92) for a single cluster: same
addressing as `fat_readclusters`, overwriting `cs` bytes of the disk. -/
def fat_writeclusters (v : fat_vol) (buf : List Nat) (cluster : Nat) : fat_vol :=
  let start := if 2 ≤ cluster then v.rs * 512 + (cluster - 2) * v.cs else 0
  { v with disk := fun a => if start ≤ a ∧ a < start + v.cs then buf.getD (a - start) 0
                            else v.disk a }

/-- The effective file size used by `fat_read`/`fat_write`
(src/src/fat.c:375-377, 417-419): the inode's stored size, or
`clustercount * cluster_size` when the stored size is 0 (a directory). -/
def fat_fsize (v : fat_vol) (ino : Nat) : Nat :=
  if ((fat_get_inode v ino).getD default).size = 0 then fat_clustercount v ino * v.cs
  else ((fat_get_inode v ino).getD default).size

/-- The number of affected clusters, `ceil((length2 + inner) / cluster_size)`
(src/src/fat.c:384-386, 426-428). -/
def fat_read_num (v : fat_vol) (length2 cluster_offset : Nat) : Nat :=
  (length2 + cluster_offset) / v.cs +
    (if (length2 + cluster_offset) % v.cs = 0 then 0 else 1)

/-- The staging buffer `fat_read` fills (src/src/fat.c:389-397): `num` whole
clusters of the chain, from cluster index `start_cluster` on. -/
def fat_read_staging (v : fat_vol) (ino num start_cluster : Nat) : List Nat :=
  (List.range num).flatMap
    (fun i => fat_readclusters v ((fat_get_clusters v ino).getD (start_cluster + i) 0))

/-- `fat_read` (src/src/fat.c:362-404): clamp `length` against `fat_fsize`,
read the `fat_read_num` affected clusters into the staging buffer and copy
`length` bytes from offset `inner = offset % cs`.  Returns the copied bytes
and the C return value.  (For `offset > size` the C `size_t` subtraction
wraps and the copy is out of bounds; the theorems stay below `size`.) -/
def fat_read (v : fat_vol) (ino : Nat) (length offset : Nat) : List Nat × Nat :=
  if ino = 0 then ([], 0)
  else if length = 0 then ([], 0)
  else
    let length2 := if fat_fsize v ino < offset + length then fat_fsize v ino - offset
                   else length
    let cluster_offset := offset % v.cs
    let staging := fat_read_staging v ino (fat_read_num v length2 cluster_offset)
      (offset / v.cs)
    ((staging.drop cluster_offset).take length2, length2)

/-- `fat_write` (src/src/fat.c:406-445): same size/clamp/cluster arithmetic
as `fat_read`; read the affected clusters (`fat_read` into a zeroed staging
buffer, so bytes past the clamped read stay 0), overlay the caller's bytes
at `inner`, write every staged cluster back.  Returns the new volume and
the C return value. -/
def fat_write (v : fat_vol) (ino : Nat) (buf : List Nat) (length offset : Nat) :
    fat_vol × Nat :=
  if ino = 0 then (v, 0)
  else
    let length2 := if fat_fsize v ino < offset + length then fat_fsize v ino - offset
                   else length
    let cluster_offset := offset % v.cs
    let num := fat_read_num v length2 cluster_offset
    let rd := (fat_read v ino (num * v.cs) (offset - cluster_offset)).1
    let staging := (List.range (num * v.cs)).map (fun i =>
      if cluster_offset ≤ i ∧ i < cluster_offset + length2 then buf.getD (i - cluster_offset) 0
      else rd.getD i 0)
    let v2 := (List.range num).foldl (fun vv i =>
      fat_writeclusters vv ((staging.drop (i * v.cs)).take v.cs)
        ((fat_get_clusters v ino).getD (offset / v.cs + i) 0)) v
    (v2, length2)
/-- `fat_touch` (src/src/fat.c:447-485): take handle `next` (incrementing
it), build an inode with `parent = -1`, directory attribute when `S_DIR` is
set, times and (`uint32_t`) size from the stat, allocate the cluster chain
(`fat_touch_alloc`), and append the inode to the list. -/
def fat_touch (v : fat_vol) (st : fstat_t) : Nat × fat_vol :=
  let ret := v.next
  let typ := if st.mode &&& S_DIR = S_DIR then FAT_DIR_DIRECTORY else 0
  let size32 := st.size % 4294967296
  let alloc := fat_touch_alloc v.fat v.nc v.cs size32
  let ino : fat_inode := { parent := -1, type := typ, cluster := alloc.1, size := size32,
                           atime := st.atime, ctime := st.ctime, mtime := st.mtime }
  (ret, { v with fat := alloc.2, inodes := v.inodes ++ [ino], next := v.next + 1 })

theorem getLastD_snoc (l : List fat_inode) (a : fat_inode) :
    ∀ d, (l ++ [a]).getLastD d = a := by
  induction l with
  | nil => intro d; rfl
  | cons x xs ih =>
    intro d
    rw [List.cons_append, List.getLastD_cons]
    exact ih x

/-- C4: for every `touch` with requested byte size `S` on a FAT12 volume with
enough free clusters, exactly `max 1 ⌈S / cluster_size⌉` clusters are
allocated and linked head-first: following the FAT from the new inode's
first cluster visits exactly that many clusters, the last FAT entry visited
is the end-of-chain marker `0xFF8`, and the pool of free FAT entries shrinks
by exactly that count. -/
theorem fat_touch_chain_spec (v : fat_vol) (st : fstat_t)
    (hnc : v.nc < 4085) (hcs : 0 < v.cs) (hS : st.size < 2147483648)
    (hfree : max 1 ((st.size + v.cs - 1) / v.cs) ≤ freeCount v.fat v.nc) :
    (fat_chain_list (fat_touch v st).2.fat
        (((fat_touch v st).2.inodes.getLastD default).cluster) v.nc).length
      = max 1 ((st.size + v.cs - 1) / v.cs) ∧
    fat_read_fat (fat_touch v st).2.fat
        ((fat_chain_list (fat_touch v st).2.fat
          (((fat_touch v st).2.inodes.getLastD default).cluster) v.nc).getLastD 0) = 0xFF8 ∧
    freeCount (fat_touch v st).2.fat v.nc + max 1 ((st.size + v.cs - 1) / v.cs)
      = freeCount v.fat v.nc := by
  have hsz : st.size % 4294967296 = st.size := Nat.mod_eq_of_lt (by omega)
  have hfat : (fat_touch v st).2.fat
      = (fat_touch_alloc v.fat v.nc v.cs (st.size % 4294967296)).2 := rfl
  have hcl : ((fat_touch v st).2.inodes.getLastD default).cluster
      = (fat_touch_alloc v.fat v.nc v.cs (st.size % 4294967296)).1 := by
    have hin : (fat_touch v st).2.inodes = v.inodes ++
        [⟨-1, if st.mode &&& S_DIR = S_DIR then FAT_DIR_DIRECTORY else 0,
          (fat_touch_alloc v.fat v.nc v.cs (st.size % 4294967296)).1,
          st.size % 4294967296, st.atime, st.ctime, st.mtime⟩] := rfl
    rw [hin, getLastD_snoc]
  rw [hfat, hcl, hsz]
  exact fat_touch_alloc_spec v.fat v.nc v.cs st.size hnc hcs hfree

/-- A sample inode for the pre-seeded root directory handle. -/
def rootInode : fat_inode := ⟨1, 0x10, 0, 0, 0, 0, 0⟩

/-- Sample FAT12 volume: 16 clusters, 4096-byte clusters, empty FAT. -/
def vWit : fat_vol := ⟨fun _ => 0, 16, 4096, 2, 240, fun _ => 0, [rootInode], 2⟩

/-- Stat for a 5000-byte regular file. -/
def stWit : fstat_t := ⟨5000, 0, 0, 0, 0⟩

theorem fat_touch_chain_spec_witness :
    (vWit.nc < 4085 ∧ 0 < vWit.cs ∧ stWit.size < 2147483648 ∧
      max 1 ((stWit.size + vWit.cs - 1) / vWit.cs) ≤ freeCount vWit.fat vWit.nc) ∧
    ((fat_chain_list (fat_touch vWit stWit).2.fat
        (((fat_touch vWit stWit).2.inodes.getLastD default).cluster) vWit.nc).length
      = max 1 ((stWit.size + vWit.cs - 1) / vWit.cs) ∧
    fat_read_fat (fat_touch vWit stWit).2.fat
        ((fat_chain_list (fat_touch vWit stWit).2.fat
          (((fat_touch vWit stWit).2.inodes.getLastD default).cluster) vWit.nc).getLastD 0)
      = 0xFF8 ∧
    freeCount (fat_touch vWit stWit).2.fat vWit.nc
        + max 1 ((stWit.size + vWit.cs - 1) / vWit.cs)
      = freeCount vWit.fat vWit.nc) :=
  ⟨⟨by decide, by decide, by decide, by decide⟩,
   fat_touch_chain_spec vWit stWit (by decide) (by decide) (by decide) (by decide)⟩

/-- FAT buffer of a full volume with `nc = 4`: the only data entry (index 3,
bytes 4-5) holds 0xFFF; every other entry is 0. -/
def fatFull : Nat → Nat := fun i => if i = 4 ∨ i = 5 then 255 else 0

/-- A full FAT12 volume: no free entry at any index `≥ 3`. -/
def vFull : fat_vol := ⟨fatFull, 4, 4096, 2, 240, fun _ => 0, [rootInode], 2⟩

/-- Stat for a 100-byte regular file. -/
def stSmall : fstat_t := ⟨100, 0, 0, 0, 0⟩

/-- C2 (the code evaluated at the failing input): on `vFull`, whose FAT has
no free entry from index 3 upward, `find_free` returns 0 — but the
subsequent `touch` does not fail: it returns the fresh handle 2 rather than
the failure sentinel 0, registers a new inode record, and changes the FAT
buffer, overwriting reserved entry 0 (previously 0) with `FAT_END`. -/
theorem fat_touch_full_volume_behavior :
    fat_find_free vFull.fat vFull.nc = 0 ∧
    (fat_touch vFull stSmall).1 = 2 ∧
    (fat_touch vFull stSmall).2.inodes.length = vFull.inodes.length + 1 ∧
    fat_read_fat vFull.fat 0 = 0 ∧
    fat_read_fat (fat_touch vFull stSmall).2.fat 0 = 0xFF8 := by decide

-- List helpers for the long-name proofs.

theorem getD_map_range {α : Type} (n i : Nat) (f : Nat → α) (d : α) (h : i < n) :
    ((List.range n).map f).getD i d = f i := by
  rw [List.getD_eq_getElem?_getD, List.getElem?_map, List.getElem?_range h]
  rfl

theorem getD_take_drop (l : List Nat) (k c t : Nat) (h : t < c) :
    ((l.drop k).take c).getD t 0 = l.getD (k + t) 0 := by
  rw [List.getD_eq_getElem?_getD, List.getD_eq_getElem?_getD, List.getElem?_take, if_pos h,
    List.getElem?_drop]

theorem flatMap_congr_mem {α β : Type} (l : List α) (f g : α → List β)
    (h : ∀ a ∈ l, f a = g a) : l.flatMap f = l.flatMap g := by
  induction l with
  | nil => rfl
  | cons x xs ih =>
    rw [List.flatMap_cons, List.flatMap_cons, h x (by simp),
      ih (fun a ha => h a (by simp [ha]))]

theorem map_congr_mem {α β : Type} (l : List α) (f g : α → β)
    (h : ∀ a ∈ l, f a = g a) : l.map f = l.map g := by
  induction l with
  | nil => rfl
  | cons x xs ih =>
    rw [List.map_cons, List.map_cons, h x (by simp), ih (fun a ha => h a (by simp [ha]))]

theorem flatMap_reverse_range {α : Type} (E : Nat) (h : Nat → List α) :
    ((List.range E).reverse).flatMap (fun j => h (E - 1 - j)) = (List.range E).flatMap h := by
  induction E generalizing h with
  | zero => rfl
  | succ E ih =>
    conv_lhs => rw [List.range_succ]
    conv_rhs => rw [List.range_succ_eq_map]
    rw [List.reverse_append]
    simp only [List.reverse_cons, List.reverse_nil, List.nil_append, List.singleton_append]
    rw [List.flatMap_cons, List.flatMap_cons]
    have e0 : E + 1 - 1 - E = 0 := by omega
    rw [e0]
    congr 1
    have hcong : ((List.range E).reverse).flatMap (fun j => h (E + 1 - 1 - j))
        = ((List.range E).reverse).flatMap (fun j => (fun t => h (t + 1)) (E - 1 - j)) := by
      apply flatMap_congr_mem
      intro a ha
      rw [List.mem_reverse, List.mem_range] at ha
      have e1 : E + 1 - 1 - a = (E - 1 - a) + 1 := by omega
      rw [e1]
    rw [hcong, ih (fun t => h (t + 1)), List.flatMap_map]

theorem flatMap_range_block {α : Type} (c : Nat) (g : Nat → α) :
    ∀ E, (List.range E).flatMap (fun f => (List.range c).map (fun t => g (c * f + t)))
      = (List.range (c * E)).map g := by
  intro E
  induction E with
  | zero => simp
  | succ E ih =>
    rw [List.range_succ, List.flatMap_append, ih, List.flatMap_cons, Nat.mul_succ,
      List.range_add, List.map_append, List.map_map]
    congr 1
    simp [Function.comp]

theorem map_getD_range_self (l : List Nat) :
    (List.range l.length).map (fun i => l.getD i 0) = l := by
  apply List.ext_getElem
  · rw [List.length_map, List.length_range]
  · intro n h1 h2
    rw [List.getElem_map, List.getElem_range, List.getD_eq_getElem?_getD,
      List.getElem?_eq_getElem h2]
    rfl

theorem takeWhile_append_all {p : Nat → Bool} (l1 l2 : List Nat)
    (h : ∀ b ∈ l1, p b = true) :
    (l1 ++ l2).takeWhile p = l1 ++ l2.takeWhile p := by
  induction l1 with
  | nil => rfl
  | cons x xs ih =>
    rw [List.cons_append, List.takeWhile_cons_of_pos (h x (by simp)),
      ih (fun b hb => h b (by simp [hb])), List.cons_append]

theorem ln_lowbytes_entry (de : List fat_longname) (name : List Nat) (E j : Nat) :
    ln_lowbytes (ln_entry de name E j)
      = (List.range 13).map
          (fun t => (ln_buffer name E).getD (2 * (13 * (E - 1 - j) + t)) 0) := by
  have h13 : (List.range 13) = [0,1,2,3,4,5,6,7,8,9,10,11,12] := rfl
  rw [h13]
  simp only [List.map_cons, List.map_nil, ln_lowbytes, ln_entry]
  rw [getD_take_drop _ _ _ _ (by omega), getD_take_drop _ _ _ _ (by omega),
    getD_take_drop _ _ _ _ (by omega), getD_take_drop _ _ _ _ (by omega),
    getD_take_drop _ _ _ _ (by omega), getD_take_drop _ _ _ _ (by omega),
    getD_take_drop _ _ _ _ (by omega), getD_take_drop _ _ _ _ (by omega),
    getD_take_drop _ _ _ _ (by omega), getD_take_drop _ _ _ _ (by omega),
    getD_take_drop _ _ _ _ (by omega), getD_take_drop _ _ _ _ (by omega),
    getD_take_drop _ _ _ _ (by omega)]
  simp only [List.cons.injEq, and_true]
  repeat' apply And.intro
  all_goals (congr 1; omega)

/-- C5 (amended): for every long name of length `L ≥ 1`, `write_longname`
emits `E = ⌈L/13⌉` entries; the first entry on disk has sequence byte
`(E mod 256) | 0x40` (equal to `E | 0x40` whenever `E ≤ 255`, i.e. for all
names of at most 3315 characters); when `E ≥ 2` the last entry on disk has
sequence byte 1, while for `E = 1` the single entry carries `1 | 0x40 =
0x41`; and every entry of the block has attribute 0x0F and a checksum byte
equal to the rotate-right-add checksum of the 11-byte short name produced by
`make_shortname`. -/
theorem fat_write_longname_block_spec (de : List fat_longname) (name : List Nat)
    (h1 : 1 ≤ name.length) :
    (fat_write_longname de name).length = (name.length + 12) / 13 ∧
    ((fat_write_longname de name).getD 0 default).num
        = ((name.length + 12) / 13) % 256 ||| 0x40 ∧
    (2 ≤ (name.length + 12) / 13 →
      ((fat_write_longname de name).getD ((name.length + 12) / 13 - 1) default).num = 1) ∧
    ((name.length + 12) / 13 = 1 →
      ((fat_write_longname de name).getD 0 default).num = 0x41) ∧
    (∀ e ∈ fat_write_longname de name,
      e.attrib = 0x0F ∧ e.checksum = fat_checksum (fat_make_shortname name)) := by
  have hE : name.length / 13 + (if name.length % 13 = 0 then 0 else 1)
      = (name.length + 12) / 13 := by
    by_cases h : name.length % 13 = 0
    · rw [if_pos h]; omega
    · rw [if_neg h]; omega
  have hblock : fat_write_longname de name
      = (List.range ((name.length + 12) / 13)).map
          (ln_entry de name ((name.length + 12) / 13)) := by
    unfold fat_write_longname
    rw [hE]
  have hEpos : 1 ≤ (name.length + 12) / 13 := by omega
  refine ⟨?_, ?_, ?_, ?_, ?_⟩
  · rw [hblock, List.length_map, List.length_range]
  · rw [hblock, getD_map_range _ _ _ _ (by omega)]
    simp [ln_entry]
  · intro h2
    rw [hblock, getD_map_range _ _ _ _ (by omega)]
    have hsub : (name.length + 12) / 13 - ((name.length + 12) / 13 - 1) = 1 := by omega
    simp [ln_entry, hsub, if_neg (by omega : ¬ ((name.length + 12) / 13 - 1 = 0))]
  · intro h2
    rw [hblock, getD_map_range _ _ _ _ (by omega), h2]
    simp [ln_entry]
  · intro e he
    rw [hblock] at he
    obtain ⟨i, _, rfl⟩ := List.mem_map.mp he
    exact ⟨rfl, rfl⟩

theorem fat_write_longname_block_spec_witness :
    1 ≤ (List.replicate 20 97 : List Nat).length ∧
    ((fat_write_longname [] (List.replicate 20 97)).length = 2 ∧
     ((fat_write_longname [] (List.replicate 20 97)).getD 0 default).num = 0x42 ∧
     (2 ≤ 2 → ((fat_write_longname [] (List.replicate 20 97)).getD 1 default).num = 1) ∧
     ((2 : Nat) = 1 →
       ((fat_write_longname [] (List.replicate 20 97)).getD 0 default).num = 0x41) ∧
     (∀ e ∈ fat_write_longname [] (List.replicate 20 97),
       e.attrib = 0x0F ∧
       e.checksum = fat_checksum (fat_make_shortname (List.replicate 20 97)))) :=
  ⟨by decide, fat_write_longname_block_spec [] (List.replicate 20 97) (by decide)⟩

/-- C5 counterexample: for the one-character name "a" the block has a single
entry (`E = 1`), and its sequence byte — the last entry on disk — is `0x41`,
not 1 as the claim states. -/
theorem fat_write_longname_block_cex :
    (fat_write_longname [] [97]).length = 1 ∧
    ((fat_write_longname [] [97]).getD
        ((fat_write_longname [] [97]).length - 1) default).num ≠ 1 := by decide

theorem fat_read_longname_cons (l0 : fat_longname) (rest : List fat_longname)
    (ha : l0.attrib = FAT_DIR_LONGNAME) (hb : l0.num &&& 0x40 ≠ 0) :
    fat_read_longname (l0 :: rest)
      = some (((List.range (l0.num &&& 0x1F)).reverse).flatMap
          (fun j => ln_lowbytes ((l0 :: rest).getD j default))) := by
  simp only [fat_read_longname]
  rw [if_neg (by simp [ha]), if_neg hb]

theorem seq_bit_facts : ∀ e, e < 32 →
    ((e % 256) ||| 0x40) &&& 0x1F = e ∧ ((e % 256) ||| 0x40) &&& 0x40 ≠ 0 := by decide

/-- C6 (amended): the long-name encode/decode round-trips for every non-empty
name of 8-bit characters of length at most 403 — so that the entry count
`E ≤ 31` survives the decoder's `seq & 0x1F` mask: `read_longname` applied
to the block written by `write_longname` succeeds, and the C string of the
returned bytes is exactly the original name. -/
theorem fat_longname_roundtrip (de : List fat_longname) (name : List Nat)
    (h1 : 1 ≤ name.length) (h2 : name.length ≤ 403)
    (hbytes : ∀ b ∈ name, 1 ≤ b ∧ b < 256) :
    ∃ raw, fat_read_longname (fat_write_longname de name) = some raw ∧
      c_str raw = name := by
  obtain ⟨E, hEdef⟩ : ∃ E, E = name.length / 13 + (if name.length % 13 = 0 then 0 else 1) :=
    ⟨_, rfl⟩
  have hE1 : 1 ≤ E := by
    by_cases h : name.length % 13 = 0
    · rw [hEdef, if_pos h]; omega
    · rw [hEdef, if_neg h]; omega
  have hE31 : E ≤ 31 := by
    by_cases h : name.length % 13 = 0
    · rw [hEdef, if_pos h]; omega
    · rw [hEdef, if_neg h]; omega
  have hLE : name.length ≤ 13 * E := by
    by_cases h : name.length % 13 = 0
    · rw [hEdef, if_pos h]; omega
    · rw [hEdef, if_neg h]; omega
  have hblock : fat_write_longname de name = (List.range E).map (ln_entry de name E) := by
    unfold fat_write_longname
    rw [← hEdef]
  obtain ⟨F, hF⟩ : ∃ F, E = F + 1 := ⟨E - 1, by omega⟩
  have hcons : (List.range E).map (ln_entry de name E)
      = ln_entry de name E 0
          :: (List.map Nat.succ (List.range F)).map (ln_entry de name E) := by
    conv_lhs => rw [hF, List.range_succ_eq_map]
    rw [List.map_cons, ← hF]
  have hnum0 : (ln_entry de name E 0).num = (E % 256) ||| 0x40 := by
    simp [ln_entry]
  have hbits := seq_bit_facts E (by omega)
  have hcount : (ln_entry de name E 0).num &&& 0x1F = E := by
    rw [hnum0]; exact hbits.1
  rw [hblock, hcons, fat_read_longname_cons _ _ rfl (by rw [hnum0]; exact hbits.2),
    hcount, ← hcons]
  refine ⟨_, rfl, ?_⟩
  have hcell : ∀ i, i < 13 * E →
      (ln_buffer name E).getD (2 * i) 0
        = (if i < name.length then name.getD i 0
           else if i = name.length then 0 else 255) := by
    intro i hi
    unfold ln_buffer
    rw [getD_map_range _ _ _ _ (by omega)]
    have hdiv : 2 * i / 2 = i := by omega
    split_ifs <;> first | rfl | (exfalso; omega) | (rw [hdiv])
  have hA : ((List.range E).reverse).flatMap
        (fun j => ln_lowbytes (((List.range E).map (ln_entry de name E)).getD j default))
      = ((List.range E).reverse).flatMap
        (fun j => (fun f => (List.range 13).map
          (fun t => (ln_buffer name E).getD (2 * (13 * f + t)) 0)) (E - 1 - j)) := by
    apply flatMap_congr_mem
    intro j hj
    rw [List.mem_reverse, List.mem_range] at hj
    rw [getD_map_range _ _ _ _ hj, ln_lowbytes_entry]
  rw [hA, flatMap_reverse_range E
        (fun f => (List.range 13).map (fun t => (ln_buffer name E).getD (2 * (13 * f + t)) 0)),
      flatMap_range_block 13 (fun i => (ln_buffer name E).getD (2 * i) 0) E]
  have hsplit : (List.range (13 * E)).map (fun i => (ln_buffer name E).getD (2 * i) 0)
      = name ++ (List.range (13 * E - name.length)).map
          (fun t => if t = 0 then (0 : Nat) else 255) := by
    have h13E : 13 * E = name.length + (13 * E - name.length) := by omega
    conv_lhs => rw [h13E]
    rw [List.range_add, List.map_append, List.map_map]
    congr 1
    · have hc : ∀ i ∈ List.range name.length,
          (fun i => (ln_buffer name E).getD (2 * i) 0) i = (fun i => name.getD i 0) i := by
        intro i hi
        rw [List.mem_range] at hi
        simp only []
        rw [hcell i (by omega), if_pos hi]
      rw [map_congr_mem _ _ _ hc]
      exact map_getD_range_self name
    · apply map_congr_mem
      intro t ht
      rw [List.mem_range] at ht
      simp only [Function.comp]
      rw [hcell (name.length + t) (by omega)]
      by_cases ht0 : t = 0
      · rw [if_neg (by omega), if_pos (by omega), if_pos ht0]
      · rw [if_neg (by omega), if_neg (by omega), if_neg ht0]
  rw [hsplit]
  unfold c_str
  rw [takeWhile_append_all _ _ (fun b hb => by
    have := (hbytes b hb).1
    simp only [bne_iff_ne, ne_eq]
    omega)]
  rcases Nat.eq_zero_or_pos (13 * E - name.length) with hz | hz
  · rw [hz]
    simp
  · obtain ⟨m, hm⟩ : ∃ m, 13 * E - name.length = m + 1 :=
      ⟨13 * E - name.length - 1, by omega⟩
    rw [hm, List.range_succ_eq_map, List.map_cons,
      List.takeWhile_cons_of_neg (by simp)]
    simp

theorem fat_longname_roundtrip_witness :
    (1 ≤ (List.replicate 20 97 : List Nat).length ∧
     (List.replicate 20 97 : List Nat).length ≤ 403 ∧
     ∀ b ∈ (List.replicate 20 97 : List Nat), 1 ≤ b ∧ b < 256) ∧
    (∃ raw, fat_read_longname (fat_write_longname [] (List.replicate 20 97)) = some raw ∧
      c_str raw = List.replicate 20 97) :=
  ⟨⟨by decide, by decide, by decide⟩,
   fat_longname_roundtrip [] (List.replicate 20 97) (by decide) (by decide) (by decide)⟩

set_option maxRecDepth 40000 in
/-- C6 counterexample: for a 404-character name (so `E = 32` entries), the
decoder's `count = seq & 0x1F` mask turns the stored sequence count
`(32 % 256) | 0x40 = 0x60` into 0, and `read_longname` returns the empty
string rather than the original name: the round-trip fails. -/
theorem fat_longname_roundtrip_cex :
    fat_read_longname (fat_write_longname [] (List.replicate 404 97)) = some [] ∧
    c_str ([] : List Nat) ≠ List.replicate 404 97 := by
  constructor
  · decide
  · decide

theorem length_flatMap_const (f : Nat → List Nat) (c : Nat) (hf : ∀ i, (f i).length = c) :
    ∀ n, ((List.range n).flatMap f).length = n * c := by
  intro n
  induction n with
  | zero => simp
  | succ n ih =>
    rw [List.range_succ, List.flatMap_append, List.length_append, ih, List.flatMap_cons]
    simp [hf]
    ring

theorem fat_read_staging_length (v : fat_vol) (ino num start_cluster : Nat) :
    (fat_read_staging v ino num start_cluster).length = num * v.cs := by
  apply length_flatMap_const
  intro i
  unfold fat_readclusters
  rw [List.length_map, List.length_range]

theorem fat_read_num_le (v : fat_vol) (l2 co : Nat) (hcs : 0 < v.cs) :
    l2 + co ≤ fat_read_num v l2 co * v.cs := by
  unfold fat_read_num
  by_cases h : (l2 + co) % v.cs = 0
  · rw [if_pos h, Nat.add_zero, Nat.div_mul_cancel (Nat.dvd_of_mod_eq_zero h)]
  · rw [if_neg h]
    have hdm := Nat.div_add_mod (l2 + co) v.cs
    have hmlt : (l2 + co) % v.cs < v.cs := Nat.mod_lt _ hcs
    calc l2 + co = v.cs * ((l2 + co) / v.cs) + (l2 + co) % v.cs := hdm.symm
    _ ≤ v.cs * ((l2 + co) / v.cs) + v.cs := by omega
    _ = ((l2 + co) / v.cs + 1) * v.cs := by ring

/-- C7: for every `read(handle, buf, len, off)` with `len > 0` on a valid
handle, where `size` is the inode's size (or `chain_length * cluster_size`
when the stored size is 0, as for directories), the number of bytes copied
and the value returned are clamped to the file: when `off + len > size` the
result is `size - off`, otherwise `len`; in particular a read at
`off = size` returns 0 bytes. -/
theorem fat_read_clamp (v : fat_vol) (ino length offset : Nat)
    (hino : ino ≠ 0) (hlen : 0 < length) (hcs : 0 < v.cs)
    (hoff : offset ≤ fat_fsize v ino) :
    (fat_read v ino length offset).2
      = (if fat_fsize v ino < offset + length then fat_fsize v ino - offset else length) ∧
    (fat_read v ino length offset).1.length = (fat_read v ino length offset).2 ∧
    (offset = fat_fsize v ino → (fat_read v ino length offset).2 = 0) := by
  have hproj : fat_read v ino length offset
      = (((fat_read_staging v ino
            (fat_read_num v
              (if fat_fsize v ino < offset + length then fat_fsize v ino - offset else length)
              (offset % v.cs))
            (offset / v.cs)).drop (offset % v.cs)).take
          (if fat_fsize v ino < offset + length then fat_fsize v ino - offset else length),
         (if fat_fsize v ino < offset + length then fat_fsize v ino - offset else length)) := by
    unfold fat_read
    rw [if_neg hino, if_neg (by omega : ¬ length = 0)]
  rw [hproj]
  refine ⟨rfl, ?_, ?_⟩
  · rw [List.length_take, List.length_drop, fat_read_staging_length]
    have hb := fat_read_num_le v
      (if fat_fsize v ino < offset + length then fat_fsize v ino - offset else length)
      (offset % v.cs) hcs
    have hmod : offset % v.cs ≤ offset := Nat.mod_le _ _
    omega
  · intro he
    rw [if_pos (by omega)]
    omega

theorem fat_read_clamp_witness :
    ((1 : Nat) ≠ 0 ∧ (0 : Nat) < 5 ∧ 0 < vWit.cs ∧ 4096 ≤ fat_fsize vWit 1) ∧
    ((fat_read vWit 1 5 4096).2
        = (if fat_fsize vWit 1 < 4096 + 5 then fat_fsize vWit 1 - 4096 else 5) ∧
     (fat_read vWit 1 5 4096).1.length = (fat_read vWit 1 5 4096).2 ∧
     (4096 = fat_fsize vWit 1 → (fat_read vWit 1 5 4096).2 = 0)) :=
  ⟨⟨by decide, by decide, by decide, by decide⟩,
   fat_read_clamp vWit 1 5 4096 (by decide) (by decide) (by decide) (by decide)⟩

theorem foldl_writeclusters_frame (B : Nat → List Nat) (C : Nat → Nat) (l : List Nat) :
    ∀ v : fat_vol,
      ((l.foldl (fun vv i => fat_writeclusters vv (B i) (C i)) v).fat = v.fat ∧
       (l.foldl (fun vv i => fat_writeclusters vv (B i) (C i)) v).inodes = v.inodes ∧
       (l.foldl (fun vv i => fat_writeclusters vv (B i) (C i)) v).next = v.next) := by
  induction l with
  | nil => intro v; exact ⟨rfl, rfl, rfl⟩
  | cons x xs ih =>
    intro v
    rw [List.foldl_cons]
    obtain ⟨h1, h2, h3⟩ := ih (fat_writeclusters v (B x) (C x))
    exact ⟨h1, h2, h3⟩

/-- C8: `write` never extends a file: for every `write(handle, buf, len,
off)` on a valid handle, the returned length is `len` clamped to the current
size (never reaching past `size`), and after the call the in-memory FAT
buffer, the inode list (hence every inode's `first_cluster` and `size`), and
the handle counter are unchanged — only the disk contents change. -/
theorem fat_write_frame (v : fat_vol) (ino : Nat) (buf : List Nat) (length offset : Nat)
    (hino : ino ≠ 0) (hoff : offset ≤ fat_fsize v ino) :
    (fat_write v ino buf length offset).1.fat = v.fat ∧
    (fat_write v ino buf length offset).1.inodes = v.inodes ∧
    (fat_write v ino buf length offset).1.next = v.next ∧
    (fat_write v ino buf length offset).2
      = (if fat_fsize v ino < offset + length then fat_fsize v ino - offset else length) ∧
    offset + (fat_write v ino buf length offset).2 ≤ fat_fsize v ino := by
  have hproj2 : (fat_write v ino buf length offset).2
      = (if fat_fsize v ino < offset + length then fat_fsize v ino - offset else length) := by
    unfold fat_write
    rw [if_neg hino]
  refine ⟨?_, ?_, ?_, hproj2, ?_⟩
  · unfold fat_write
    rw [if_neg hino]
    exact (foldl_writeclusters_frame _ _ _ v).1
  · unfold fat_write
    rw [if_neg hino]
    exact (foldl_writeclusters_frame _ _ _ v).2.1
  · unfold fat_write
    rw [if_neg hino]
    exact (foldl_writeclusters_frame _ _ _ v).2.2
  · rw [hproj2]
    by_cases h : fat_fsize v ino < offset + length
    · rw [if_pos h]
      omega
    · rw [if_neg h]
      omega

theorem fat_write_frame_witness :
    ((1 : Nat) ≠ 0 ∧ 0 ≤ fat_fsize vWit 1) ∧
    ((fat_write vWit 1 [1, 2, 3] 3 0).1.fat = vWit.fat ∧
     (fat_write vWit 1 [1, 2, 3] 3 0).1.inodes = vWit.inodes ∧
     (fat_write vWit 1 [1, 2, 3] 3 0).1.next = vWit.next ∧
     (fat_write vWit 1 [1, 2, 3] 3 0).2
       = (if fat_fsize vWit 1 < 0 + 3 then fat_fsize vWit 1 - 0 else 3) ∧
     0 + (fat_write vWit 1 [1, 2, 3] 3 0).2 ≤ fat_fsize vWit 1) :=
  ⟨⟨by decide, by decide⟩,
   fat_write_frame vWit 1 [1, 2, 3] 3 0 (by decide) (by decide)⟩

-- The directory-entry side of fat_link (for C1) and the readdir/unlink/rmdir
-- operations (for C10).

/-- The `fat_dir_t` 32-byte short directory entry (declared in the missing
`fat.h`, laid out per spec §3): 11-byte name, attribute, reserved byte,
creation tenths, times/dates, split cluster, size. -/
structure fat_dir where
  name : List Nat
  attrib : Nat
  res : Nat
  csec : Nat
  ctime : Nat
  cdate : Nat
  adate : Nat
  cluster_high : Nat
  mtime : Nat
  mdate : Nat
  cluster_low : Nat
  size : Nat
deriving Inhabited, DecidableEq

/-- The short-entry construction of `fat_link` (src/src/fat.c:697-727): the
fields stored into the 32-byte slot `de` for the inode `iino` being linked
under `name`, with the C library `gmtime` passed in as `gm` (external).
Names other than the 11-character literals `". "`/`".. "` go through
`make_shortname`; the time fields pack the masked `tm` fields; the reserved
byte is the only field `fat_link` leaves untouched (`prior`).  Note line
726: `de->cluster_low = iino->cluster & 0xFF` — only the low 8 bits. -/
def fat_link_entry (iino : fat_inode) (name : List Nat) (gm : Int → fat_tm)
    (prior : fat_dir) : fat_dir :=
  let nm := if name ≠ (46 :: List.replicate 10 32) ∧ name ≠ (46 :: 46 :: List.replicate 9 32)
            then fat_make_shortname name else name
  let ct := gm iino.ctime
  let ta := gm iino.atime
  let mt := gm iino.mtime
  { name := nm
    attrib := iino.type
    res := prior.res
    csec := 0
    ctime := (ct.tm_hour % 32) * 2048 + (ct.tm_min % 64) * 32 + ct.tm_sec % 32
    cdate := (ct.tm_year % 128) * 512 + (ct.tm_mon % 16) * 32 + ct.tm_mday % 32
    adate := (ta.tm_year % 128) * 512 + (ta.tm_mon % 16) * 32 + ta.tm_mday % 32
    mtime := (mt.tm_hour % 32) * 2048 + (mt.tm_min % 64) * 32 + mt.tm_sec % 32
    mdate := (mt.tm_year % 128) * 512 + (mt.tm_mon % 16) * 32 + mt.tm_mday % 32
    cluster_high := (iino.cluster >>> 16) % 65536
    cluster_low := iino.cluster &&& 0xFF
    size := iino.size % 4294967296 }

/-- A regular-file inode whose first cluster is 256. -/
def ino256 : fat_inode := ⟨-1, 0, 256, 100, 0, 0, 0⟩

/-- C1 (the code evaluated at the failing input): linking an inode whose
first cluster is 256 stores `cluster_low = 256 & 0xFF = 0` — the source
masks with 0xFF instead of 0xFFFF (src/src/fat.c:726) — so the written
entry reconstructs `cluster_high << 16 | cluster_low = 0 ≠ 256`. -/
theorem fat_link_entry_cluster_bug :
    ino256.cluster = 256 ∧
    (fat_link_entry ino256 [104, 105] (fun _ => default) default).cluster_low = 0 ∧
    (fat_link_entry ino256 [104, 105] (fun _ => default) default).cluster_high = 0 ∧
    ((fat_link_entry ino256 [104, 105] (fun _ => default) default).cluster_high <<< 16 |||
     (fat_link_entry ino256 [104, 105] (fun _ => default) default).cluster_low)
      ≠ ino256.cluster := by decide

-- Byte-level directory parsing used by readdir and unlink.

/-- Little-endian 16-bit field at byte offset `off`. -/
def le16 (bytes : List Nat) (off : Nat) : Nat :=
  bytes.getD off 0 + bytes.getD (off + 1) 0 * 256

/-- Little-endian 32-bit field at byte offset `off`. -/
def le32 (bytes : List Nat) (off : Nat) : Nat :=
  le16 bytes off + le16 bytes (off + 2) * 65536

/-- View of a 32-byte slot at offset `off` as a `fat_longname_t`, mirroring
the C pointer cast in `fat_readdir`/`fat_read_longname`. -/
def parse_ln (bytes : List Nat) (off : Nat) : fat_longname :=
  { num := bytes.getD off 0
    name1 := (bytes.drop (off + 1)).take 10
    attrib := bytes.getD (off + 11) 0
    entry_type := bytes.getD (off + 12) 0
    checksum := bytes.getD (off + 13) 0
    name2 := (bytes.drop (off + 14)).take 12
    cluster := le16 bytes (off + 26)
    name3 := (bytes.drop (off + 28)).take 4 }

/-- `fat_read_longname` applied at byte offset `off` of a directory buffer:
the C code indexes `ln[j]` for `j < seq & 0x1F ≤ 31`, so 32 consecutive
slots cover every access. -/
def fat_read_longname_at (bytes : List Nat) (off : Nat) : Option (List Nat) :=
  fat_read_longname ((List.range 32).map (fun j => parse_ln bytes (off + 32 * j)))

/-- The entry-cursor loop of `fat_readdir` (src/src/fat.c:527-548): while
`num > 2` and the cursor is below `max`, stop at an end marker (name byte
0), skip long-name (attribute 0x0F) and deleted (0xE5) entries without
counting, count others; after the loop fail on an end marker or cursor past
`max`, else return the cursor.  Structural fuel (`size/32 + 1` suffices)
stands in for the C `while`. -/
def fat_scan (bytes : List Nat) (mx : Nat) : Nat → Nat → Nat → Option Nat
  | 0, _, _ => none
  | fuel + 1, off, num =>
    if 2 < num ∧ off < mx then
      if bytes.getD off 0 = 0 then none
      else if bytes.getD (off + 11) 0 = FAT_DIR_LONGNAME ∨ bytes.getD off 0 = 0xE5 then
        fat_scan bytes mx fuel (off + 32) num
      else fat_scan bytes mx fuel (off + 32) (num - 1)
    else
      if bytes.getD off 0 = 0 ∨ mx ≤ off then none
      else some off

/-- The `while(de->attrib == FAT_DIR_LONGNAME) de++` cursor advance
(src/src/fat.c:552, 806). -/
def fat_skip_ln (bytes : List Nat) : Nat → Nat → Nat
  | 0, off => off
  | fuel + 1, off =>
    if bytes.getD (off + 11) 0 = FAT_DIR_LONGNAME then fat_skip_ln bytes fuel (off + 32)
    else off

/-- The 8.3 name parse of `fat_readdir` (src/src/fat.c:562-576): cut the
11-byte name field at its first space, copy up to 8 leading characters,
append a `.` for non-directories, then up to 3 extension characters, and cut
at a remaining space.  (The C `strchr`/`strncpy` calls treat the field as a
NUL-terminated string; this model reads the 11 declared bytes.) -/
def fat_83_name (bytes : List Nat) (off : Nat) : List Nat :=
  let n11 := (bytes.drop off).take 11
  let s := match (c_str n11).findIdx? (fun b => b == 32) with
           | some j => n11.set j 0
           | none => n11
  let base := (c_str s).take 8
  let ext := ((s.drop 8).takeWhile (fun b => b != 0)).take 3
  let dot : List Nat := if bytes.getD (off + 11) 0 ≠ FAT_DIR_DIRECTORY then [46] else []
  (base ++ dot ++ ext).takeWhile (fun b => b != 32)

/-- The `struct tm` built from the access date (src/src/fat.c:585-588). -/
def fat_adate_tm (bytes : List Nat) (off : Nat) : fat_tm :=
  let adate := le16 bytes (off + 18)
  { tm_sec := 0, tm_min := 0, tm_hour := 0,
    tm_mday := adate % 32, tm_mon := adate / 32 % 16, tm_year := adate / 512 % 128 }

/-- The `struct tm` built from the creation time/date (src/src/fat.c:599-605). -/
def fat_ctime_tm (bytes : List Nat) (off : Nat) : fat_tm :=
  let ct := le16 bytes (off + 14)
  let cd := le16 bytes (off + 16)
  { tm_sec := ct % 32, tm_min := ct / 32 % 64, tm_hour := ct / 2048 % 32,
    tm_mday := cd % 32, tm_mon := cd / 32 % 16, tm_year := cd / 512 % 128 }

/-- The `struct tm` built from the modification time/date
(src/src/fat.c:618-624). -/
def fat_mtime_tm (bytes : List Nat) (off : Nat) : fat_tm :=
  let mt := le16 bytes (off + 22)
  let md := le16 bytes (off + 24)
  { tm_sec := mt % 32, tm_min := mt / 32 % 64, tm_hour := mt / 2048 % 32,
    tm_mday := md % 32, tm_mon := md / 32 % 16, tm_year := md / 512 % 128 }

/-- `fat_readdir` (src/src/fat.c:487-652): entries 0 and 1 are the synthetic
`.` and `..`; for `num ≥ 2` the directory contents are read in full, `num`
is biased by 2 for non-root directories, the cursor loop locates the target
short entry, a preceding long-name block (if any) or the 8.3 field yields
the name, and a fresh inode record is registered from the entry's split
cluster, size, attribute and decoded times (`mktime` is external, passed as
`mk`).  Returns the dirent (name, handle) and the updated volume. -/
def fat_readdir (v : fat_vol) (mk : fat_tm → Int) (dir num : Nat) :
    Option dirent_t × fat_vol :=
  match fat_get_inode v dir with
  | none => (none, v)
  | some dino =>
    if dino.type ≠ FAT_DIR_DIRECTORY then (none, v)
    else if num = 0 then (some ⟨[46], (dir : Int)⟩, v)
    else if num = 1 then (some ⟨[46, 46], dino.parent⟩, v)
    else
      let num2 := if dir ≠ 1 then num + 2 else num
      let sz := fat_clustercount v dir * v.cs
      let bytes := (fat_read v dir sz 0).1
      match fat_scan bytes sz (sz / 32 + 1) 0 num2 with
      | none => (none, v)
      | some off =>
        let longname := fat_read_longname_at bytes off
        let off2 := fat_skip_ln bytes (sz / 32 + 1) off
        let name := match longname with
                    | some raw => c_str raw
                    | none => fat_83_name bytes off2
        let ino : fat_inode :=
          { parent := (dir : Int), type := bytes.getD (off2 + 11) 0,
            cluster := le16 bytes (off2 + 20) * 65536 + le16 bytes (off2 + 26),
            size := le32 bytes (off2 + 28),
            atime := mk (fat_adate_tm bytes off2),
            ctime := mk (fat_ctime_tm bytes off2),
            mtime := mk (fat_mtime_tm bytes off2) }
        (some ⟨name, (v.next : Int)⟩,
         { v with inodes := v.inodes ++ [ino], next := v.next + 1 })

/-- The entry-cursor loop of `fat_unlink` (src/src/fat.c:780-800): unlike
`fat_readdir`'s loop it does not skip deleted (0xE5) entries, and the
post-loop check tests only for the end marker. -/
def fat_unlink_scan (bytes : List Nat) (mx : Nat) : Nat → Nat → Nat → Option Nat
  | 0, _, _ => none
  | fuel + 1, off, num =>
    if 2 < num ∧ off < mx then
      if bytes.getD off 0 = 0 then none
      else if bytes.getD (off + 11) 0 = FAT_DIR_LONGNAME then
        fat_unlink_scan bytes mx fuel (off + 32) num
      else fat_unlink_scan bytes mx fuel (off + 32) (num - 1)
    else
      if bytes.getD off 0 = 0 then none
      else some off

/-- `fat_unlink` (src/src/fat.c:751-831): guards (`num < 2` fails), resolve
the target via `readdir` (registering its inode), re-read the directory,
locate the same short entry, compact the buffer over the removed entry
(from the short entry through the following slot — the source's `start`
does not include preceding long-name entries), write it back, and zero the
target's FAT chain.  A `readdir` miss makes the C code dereference a null
dirent (undefined); the model returns failure there. -/
def fat_unlink (v : fat_vol) (mk : fat_tm → Int) (dir num : Nat) : Nat × fat_vol :=
  if dir = 0 then (1, v)
  else if num < 2 then (1, v)
  else
    match fat_get_inode v dir with
    | none => (1, v)
    | some dino =>
      if dino.type ≠ FAT_DIR_DIRECTORY then (1, v)
      else
        match fat_readdir v mk dir num with
        | (none, v1) => (1, v1)
        | (some de, v1) =>
          let item := de.ino
          let sz := fat_clustercount v1 dir * v1.cs
          let bytes := (fat_read v1 dir sz 0).1
          let num2 := if dir ≠ 1 then num + 2 else num
          match fat_unlink_scan bytes sz (sz / 32 + 1) 0 num2 with
          | none => (1, v1)
          | some off =>
            let nxt := fat_skip_ln bytes (sz / 32 + 1) off + 32
            let buffer2 := (List.range sz).map (fun i =>
              if i < off then bytes.getD i 0
              else if i < off + (sz - nxt) then bytes.getD (nxt + (i - off)) 0
              else 0)
            let v2 := (fat_write v1 dir buffer2 sz 0).1
            let fat2 := ((fat_get_clusters v2 item.toNat).takeWhile (fun c => c != 0)).foldl
              (fun f c => fat_write_fat f c 0) v2.fat
            (0, { v2 with fat := fat2 })

/-- `fat_rmdir` (src/src/fat.c:885-903): resolve entry `num` of `dir` via
`readdir`, fail (1) when the target still has an entry at index 2, otherwise
call `fat_unlink` and return 0 — the unlink's own status is discarded.  A
null first `readdir` makes the C code dereference a null dirent (undefined);
the model returns `none` there. -/
def fat_rmdir (v : fat_vol) (mk : fat_tm → Int) (dir num : Nat) :
    Option (Nat × fat_vol) :=
  if dir = 0 then some (1, v)
  else
    match (fat_readdir v mk dir num).1 with
    | none => none
    | some de =>
      if (fat_readdir (fat_readdir v mk dir num).2 mk de.ino.toNat 2).1.isSome then
        some (1, (fat_readdir (fat_readdir v mk dir num).2 mk de.ino.toNat 2).2)
      else
        some (0, (fat_unlink (fat_readdir (fat_readdir v mk dir num).2 mk de.ino.toNat 2).2
          mk dir num).2)

/-- C10: `rmdir` discards the status of its unlink step.  Whenever
`readdir(dir, num)` resolves to an entry `d` and the target `d.ino` has no
entry beyond `.` and `..` (its `readdir(·, 2)` is null), `rmdir` returns
success (0) with the state produced by the unlink step — even if the unlink
fails; in particular for `num < 2` the unlink step rejects the index,
returns 1, and changes nothing, yet `rmdir` still reports success, so a 0
from `rmdir` does not imply a directory entry was removed. -/
theorem fat_rmdir_discards_unlink (v : fat_vol) (mk : fat_tm → Int) (dir num : Nat)
    (d : dirent_t)
    (hd : (fat_readdir v mk dir num).1 = some d)
    (hempty : (fat_readdir (fat_readdir v mk dir num).2 mk d.ino.toNat 2).1 = none) :
    fat_rmdir v mk dir num
      = some (0, (fat_unlink (fat_readdir (fat_readdir v mk dir num).2 mk d.ino.toNat 2).2
                    mk dir num).2) ∧
    (num < 2 →
      fat_unlink (fat_readdir (fat_readdir v mk dir num).2 mk d.ino.toNat 2).2 mk dir num
        = (1, (fat_readdir (fat_readdir v mk dir num).2 mk d.ino.toNat 2).2)) := by
  have hdir : ¬ dir = 0 := by
    intro h0
    rw [h0] at hd
    simp [fat_readdir, fat_get_inode] at hd
  constructor
  · unfold fat_rmdir
    rw [if_neg hdir, hd]
    simp only []
    rw [hempty]
    simp only [Option.isSome_none, Bool.false_eq_true, if_false]
  · intro hnum
    unfold fat_unlink
    rw [if_neg hdir, if_pos hnum]

/-- A small FAT12 volume whose root directory (handle 1, one 512-byte
cluster) is empty on disk. -/
def vDir : fat_vol := ⟨fun _ => 0, 16, 512, 2, 16, fun _ => 0, [rootInode], 2⟩

set_option maxRecDepth 100000 in
theorem fat_rmdir_discards_unlink_witness :
    ((fat_readdir vDir (fun _ => (0 : Int)) 1 0).1 = some ⟨[46], (1 : Int)⟩ ∧
     (fat_readdir (fat_readdir vDir (fun _ => (0 : Int)) 1 0).2 (fun _ => (0 : Int))
        ((1 : Int)).toNat 2).1 = none) ∧
    (fat_rmdir vDir (fun _ => (0 : Int)) 1 0
        = some (0, (fat_unlink (fat_readdir (fat_readdir vDir (fun _ => (0 : Int)) 1 0).2
            (fun _ => (0 : Int)) ((⟨[46], (1 : Int)⟩ : dirent_t)).ino.toNat 2).2
            (fun _ => (0 : Int)) 1 0).2) ∧
     ((0 : Nat) < 2 →
       fat_unlink (fat_readdir (fat_readdir vDir (fun _ => (0 : Int)) 1 0).2
           (fun _ => (0 : Int)) ((⟨[46], (1 : Int)⟩ : dirent_t)).ino.toNat 2).2
           (fun _ => (0 : Int)) 1 0
         = (1, (fat_readdir (fat_readdir vDir (fun _ => (0 : Int)) 1 0).2
             (fun _ => (0 : Int)) ((⟨[46], (1 : Int)⟩ : dirent_t)).ino.toNat 2).2))) :=
  ⟨⟨by decide, by decide⟩,
   fat_rmdir_discards_unlink vDir (fun _ => (0 : Int)) 1 0 ⟨[46], (1 : Int)⟩
     (by decide) (by decide)⟩
